import Mathlib

/-!
Shallow embedding of the Pashucare chat application core, translated from:
  * `apps/web/convex/chats.ts` (chat/message store accessors),
  * the chat completion API route (`POST`, system-prompt handling),
  * `apps/web/app/chat/components/active-chat-input.tsx`
    (send workflow, stop handling, auto-trigger latch).

Conventions of the embedding:
  * `ctx.auth.getUserIdentity()` is the `identity : Option String` argument
    (`none` models an unauthenticated request; `some userId` the subject id).
  * `Date.now()` is the `now : Nat` argument.
  * The Convex document database is a pair of association lists keyed by
    numeric ids, with fresh ids drawn from `nextChatId` / `nextMessageId`.
  * A thrown `Error` is `Except.error` carrying the thrown message string.
-/

namespace Pashucare

/-- Message role, from the `v.union(v.literal("user"), ...)` validator. -/
inductive Role where
  | user
  | assistant
  | system
deriving Repr, DecidableEq

/-- Message status, from the `v.union(v.literal("pending"), ...)` validator. -/
inductive MsgStatus where
  | pending
  | streaming
  | sent
  | error
deriving Repr, DecidableEq

/-- A document of the `chats` table (see the inserts/patches in `chats.ts`). -/
structure Chat where
  name : String
  userId : String
  createdAt : Nat
  updatedAt : Nat
  isDeleted : Bool
  messageCount : Nat
deriving Repr, DecidableEq

/-- A document of the `messages` table (see the inserts/patches in `chats.ts`). -/
structure Message where
  chatId : Nat
  role : Role
  content : String
  status : MsgStatus
  createdAt : Nat
  updatedAt : Option Nat
  tokens : Nat
deriving Repr, DecidableEq

/-- The backing store: both tables plus the id allocators. -/
structure DB where
  chats : List (Nat × Chat)
  messages : List (Nat × Message)
  nextChatId : Nat
  nextMessageId : Nat
deriving Repr, DecidableEq

/-- First value stored under key `x`, if any. -/
def lookupId {α : Type} (x : Nat) : List (Nat × α) → Option α
  | [] => none
  | (k, v) :: rest => if x = k then some v else lookupId x rest

/-- `ctx.db.get(chatId)` on the `chats` table. -/
def DB.getChat (db : DB) (id : Nat) : Option Chat :=
  lookupId id db.chats

/-- `ctx.db.get(messageId)` on the `messages` table. -/
def DB.getMessage (db : DB) (id : Nat) : Option Message :=
  lookupId id db.messages

/-- Replace the value stored under key `id`, keeping every other entry. -/
def setEntry {α : Type} (id : Nat) (c : α) : List (Nat × α) → List (Nat × α)
  | [] => []
  | (k, v) :: rest =>
    if k = id then (id, c) :: setEntry id c rest else (k, v) :: setEntry id c rest

/-- `ctx.db.patch` on a chat document: replaces the value at an existing key. -/
def DB.setChat (db : DB) (id : Nat) (c : Chat) : DB :=
  { db with chats := setEntry id c db.chats }

/-- `ctx.db.patch` on a message document. -/
def DB.setMessage (db : DB) (id : Nat) (m : Message) : DB :=
  { db with messages := setEntry id m db.messages }

/-- Well-formedness: every allocated id is below the allocator, so a fresh
insert never shadows an existing document. -/
def DB.WF (db : DB) : Prop :=
  (∀ p ∈ db.chats, p.1 < db.nextChatId) ∧ (∀ p ∈ db.messages, p.1 < db.nextMessageId)

instance (db : DB) : Decidable db.WF := by
  unfold DB.WF; infer_instance

/-- `getChatById` query (`chats.ts` lines 29–47): returns `null` when
unauthenticated, when the chat does not exist, when it is owned by another
user, or when it is soft-deleted. -/
def getChatById (db : DB) (identity : Option String) (chatId : Nat) : Option Chat :=
  match identity with
  | none => none
  | some userId =>
    match db.getChat chatId with
    | none => none
    | some chat =>
      if chat.userId ≠ userId ∨ chat.isDeleted = true then none else some chat

/-- `getChatMessages` query (`chats.ts` lines 53–80): throws when
unauthenticated or when the chat is missing, foreign, or soft-deleted;
otherwise returns the chat's messages.  (The source's thrown message
interpolates the two user ids; the embedding keeps a fixed string.) -/
def getChatMessages (db : DB) (identity : Option String) (chatId : Nat) :
    Except String (List (Nat × Message)) :=
  match identity with
  | none => .error "Unauthenticated"
  | some userId =>
    match db.getChat chatId with
    | none => .error "Chat not found or unauthorized"
    | some chat =>
      if chat.userId ≠ userId ∨ chat.isDeleted = true then
        .error "Chat not found or unauthorized"
      else
        .ok (db.messages.filter fun p => p.2.chatId = chatId)

/-- JS `String.prototype.trim`: strip leading and trailing whitespace. -/
def strTrim (s : String) : String :=
  ⟨(((s.data.dropWhile Char.isWhitespace).reverse).dropWhile Char.isWhitespace).reverse⟩

/-- `Math.ceil(length / 4)` on a natural number length is `(length + 3) / 4`. -/
def tokenEstimate (length : Nat) : Nat :=
  (length + 3) / 4

/-- `createChat` mutation (`chats.ts` lines 84–121). -/
def createChat (db : DB) (identity : Option String) (now : Nat)
    (name : String) (initialMessage : Option String) : Except String (DB × Nat) :=
  match identity with
  | none => .error "Unauthenticated"
  | some userId =>
    let chatId := db.nextChatId
    let chat : Chat :=
      { name := name, userId := userId, createdAt := now, updatedAt := now,
        isDeleted := false,
        messageCount := if initialMessage.isSome then 1 else 0 }
    let db1 : DB :=
      { db with chats := (chatId, chat) :: db.chats, nextChatId := db.nextChatId + 1 }
    match initialMessage with
    | none => .ok (db1, chatId)
    | some im =>
      let msg : Message :=
        { chatId := chatId, role := .user, content := im, status := .sent,
          createdAt := now, updatedAt := none, tokens := tokenEstimate im.length }
      .ok ({ db1 with
              messages := (db1.nextMessageId, msg) :: db1.messages,
              nextMessageId := db1.nextMessageId + 1 }, chatId)

/-- `createMessage` mutation (`chats.ts` lines 123–166). -/
def createMessage (db : DB) (identity : Option String) (now : Nat)
    (chatId : Nat) (role : Role) (content : String) : Except String (DB × Nat) :=
  match identity with
  | none => .error "Unauthenticated"
  | some userId =>
    match db.getChat chatId with
    | none => .error "Unauthorized or chat not found"
    | some chat =>
      if chat.userId ≠ userId ∨ chat.isDeleted = true then
        .error "Unauthorized or chat not found"
      else
        let messageId := db.nextMessageId
        let msg : Message :=
          { chatId := chatId, role := role, content := content,
            status := if role = .user then .sent else .pending,
            createdAt := now, updatedAt := none,
            tokens := tokenEstimate content.length }
        let db1 : DB :=
          { db with
              messages := (messageId, msg) :: db.messages,
              nextMessageId := db.nextMessageId + 1 }
        let db2 := db1.setChat chatId
          { chat with updatedAt := now, messageCount := chat.messageCount + 1 }
        .ok (db2, messageId)

/-- `updateMessage` mutation (`chats.ts` lines 168–220).  Authorization goes
through the parent chat's owner only (no soft-delete check).  `if (status)` is
truthy exactly when a status argument was supplied; `if (append &&
message.content)` is truthy exactly when `append` is `some true` and the
existing content is non-empty. -/
def updateMessage (db : DB) (identity : Option String) (now : Nat)
    (messageId : Nat) (content : Option String) (status : Option MsgStatus)
    (append : Option Bool) : Except String DB :=
  match identity with
  | none => .error "Unauthenticated"
  | some userId =>
    match db.getMessage messageId with
    | none => .error "Message not found"
    | some message =>
      match db.getChat message.chatId with
      | none => .error "Unauthorized"
      | some chat =>
        if chat.userId ≠ userId then .error "Unauthorized"
        else
          let m1 : Message :=
            match status with
            | some s => { message with status := s }
            | none => message
          let m2 : Message :=
            match content with
            | none => m1
            | some c =>
              if append = some true ∧ message.content ≠ "" then
                { m1 with content := message.content ++ c, updatedAt := some now }
              else
                { m1 with content := c, updatedAt := some now }
          let db1 := db.setMessage messageId m2
          let db2 :=
            if status = some .sent ∧ message.status ≠ .sent then
              db1.setChat message.chatId { chat with updatedAt := now }
            else db1
          .ok db2

/-- `softDeleteChat` mutation (`chats.ts` lines 222–245): ownership check
only (no soft-delete check), then sets the terminal deleted state. -/
def softDeleteChat (db : DB) (identity : Option String) (now : Nat)
    (chatId : Nat) : Except String DB :=
  match identity with
  | none => .error "Unauthenticated"
  | some userId =>
    match db.getChat chatId with
    | none => .error "Unauthorized"
    | some chat =>
      if chat.userId ≠ userId then .error "Unauthorized"
      else
        .ok (db.setChat chatId { chat with isDeleted := true, updatedAt := now, name := "" })

/-- `renameChat` mutation (`chats.ts` lines 247–270): ownership check only
(no soft-delete check), then patches the trimmed name. -/
def renameChat (db : DB) (identity : Option String) (now : Nat)
    (chatId : Nat) (name : String) : Except String DB :=
  match identity with
  | none => .error "Unauthenticated"
  | some userId =>
    match db.getChat chatId with
    | none => .error "Unauthorized"
    | some chat =>
      if chat.userId ≠ userId then .error "Unauthorized"
      else
        .ok (db.setChat chatId { chat with name := strTrim name, updatedAt := now })

/-- One public mutation of the store interface, with its arguments. -/
inductive Op where
  | createChat (name : String) (initialMessage : Option String)
  | createMessage (chatId : Nat) (role : Role) (content : String)
  | updateMessage (messageId : Nat) (content : Option String)
      (status : Option MsgStatus) (append : Option Bool)
  | softDeleteChat (chatId : Nat)
  | renameChat (chatId : Nat) (name : String)
deriving Repr, DecidableEq

/-- The store state after running one public mutation.  A thrown error rolls
the Convex transaction back, so the state is unchanged on `Except.error`. -/
def applyOp (db : DB) (identity : Option String) (now : Nat) : Op → DB
  | .createChat n im =>
    match createChat db identity now n im with
    | .ok (d, _) => d
    | .error _ => db
  | .createMessage cid r c =>
    match createMessage db identity now cid r c with
    | .ok (d, _) => d
    | .error _ => db
  | .updateMessage mid c s a =>
    match updateMessage db identity now mid c s a with
    | .ok d => d
    | .error _ => db
  | .softDeleteChat cid =>
    match softDeleteChat db identity now cid with
    | .ok d => d
    | .error _ => db
  | .renameChat cid n =>
    match renameChat db identity now cid n with
    | .ok d => d
    | .error _ => db

/-! ### Chat completion API route (`POST /api/chat/[id]`)

The route validates the body against `chatRequestSchema` (a non-empty list of
`{role, content}` pairs) and prepends the fixed system prompt unless the first
message already has role `system`:
`messages[0]?.role === "system" ? messages : [SYSTEM_PROMPT, ...messages]`.
The text of the system prompt is irrelevant here, so it is a parameter `sp`. -/

/-- A `{role, content}` pair of the API request body / of the UI's history. -/
structure ApiMessage where
  role : Role
  content : String
deriving Repr, DecidableEq

/-- The `fullMessages` value computed by the route handler. -/
def fullMessages (sp : String) (messages : List ApiMessage) : List ApiMessage :=
  match messages.head? with
  | some m => if m.role = .system then messages else ⟨.system, sp⟩ :: messages
  | none => ⟨.system, sp⟩ :: messages

/-- The `min(1)` bound of `chatRequestSchema`. -/
def chatRequestValid (messages : List ApiMessage) : Bool :=
  messages.length ≥ 1

/-! ### Chat UI controller (`active-chat-input.tsx`)

`sendMessage` persists to the placeholder assistant message: first a
`status: "streaming"` update, then one whole-content update per received
fragment, then a terminal update whose shape depends on how the run ended
(normal completion, user stop via `handleStop`, or a thrown error).
`handleStop` only persists when `pendingMessageId && streamingContent` is
truthy, i.e. when the accumulated content is non-empty. -/

/-- One `updateMessage` call made on the placeholder assistant message. -/
structure PersistCall where
  content : Option String
  status : Option MsgStatus
  append : Option Bool
deriving Repr, DecidableEq

/-- `accumulatedContent += chunk` over a fragment list, starting from `acc`. -/
def accumulate (acc : String) (frags : List String) : String :=
  frags.foldl (· ++ ·) acc

/-- The per-fragment persistence calls of the streaming loop (step 5): each
fragment persists the full accumulated buffer with `append: false`. -/
def streamLoopCalls (acc : String) : List String → List PersistCall
  | [] => []
  | chunk :: rest =>
    ⟨some (acc ++ chunk), none, some false⟩ :: streamLoopCalls (acc ++ chunk) rest

/-- How one run of the send workflow ends: normal completion after all
fragments, user stop after `k` fragments, or a thrown error after `k`
fragments. -/
inductive SendOutcome where
  | completed
  | stopped (k : Nat)
  | failed (k : Nat)
deriving Repr, DecidableEq

/-- The sequence of `updateMessage` calls the controller issues on the
placeholder assistant message during one run of `sendMessage`, given the
fragments the stream delivers and how the run ends.

  * `completed`: the `status: "streaming"` update, the loop updates, then the
    step-6 completion `{content: accumulatedContent, status: "sent"}`.
  * `stopped k`: the loop ran for `k` fragments; `handleStop` persists
    `{content: streamingContent, status: "sent"}` only when the accumulated
    content is non-empty (`pendingMessageId && streamingContent`), and the
    aborted fetch rejects with `AbortError`, whose catch branch returns
    without persisting anything.
  * `failed k`: the catch branch persists `{status: "error", content:
    accumulatedContent || "Failed to generate response"}`. -/
def sendPersistTrace (frags : List String) : SendOutcome → List PersistCall
  | .completed =>
    ⟨none, some .streaming, none⟩ ::
      (streamLoopCalls "" frags ++ [⟨some (accumulate "" frags), some .sent, none⟩])
  | .stopped k =>
    let acc := accumulate "" (frags.take k)
    ⟨none, some .streaming, none⟩ ::
      (streamLoopCalls "" (frags.take k) ++
        (if acc ≠ "" then [⟨some acc, some .sent, none⟩] else []))
  | .failed k =>
    let acc := accumulate "" (frags.take k)
    ⟨none, some .streaming, none⟩ ::
      (streamLoopCalls "" (frags.take k) ++
        [⟨some (if acc = "" then "Failed to generate response" else acc), some .error, none⟩])

/-- The message status after a sequence of persistence calls is applied to a
message whose status starts as `s` (the placeholder is created `pending`). -/
def applyCalls (s : MsgStatus) (calls : List PersistCall) : MsgStatus :=
  calls.foldl (fun st c => c.status.getD st) s

/-- The persisted content values carried by a sequence of persistence calls. -/
def persistedContents (calls : List PersistCall) : List String :=
  calls.filterMap PersistCall.content

/-- Collapse adjacent duplicates: the distinct content values a persisted
sequence passes through, in order. -/
def dedupAdj : List String → List String
  | [] => []
  | [a] => [a]
  | a :: b :: rest => if a = b then dedupAdj (b :: rest) else a :: dedupAdj (b :: rest)

/-- The running prefixes `f1, f1++f2, …` of a fragment list, each prefixed by
`acc`. -/
def runningBuffers (acc : String) : List String → List String
  | [] => []
  | f :: fs => (acc ++ f) :: runningBuffers (acc ++ f) fs

/-! ### Auto-trigger effect (`active-chat-input.tsx` lines 211–226)

The effect runs on every render with the current `autoTrigger` flag, the
loaded messages (newest first) and the `isStreaming` flag; `hasAutoTriggered`
is a ref initialised to `false` at mount and set to `true` just before the
single `sendMessage(lastMessage.content, true)` call. -/

/-- The inputs the auto-trigger effect reads on one render. -/
structure RenderState where
  autoTrigger : Bool
  messages : List ApiMessage
  isStreaming : Bool
deriving Repr, DecidableEq

/-- One `sendMessage(content, skipUserMessage)` invocation. -/
structure FireCall where
  content : String
  skipUserMessage : Bool
deriving Repr, DecidableEq

/-- One run of the effect body: returns the updated latch and the
`sendMessage` calls it makes. -/
def autoTriggerStep (latch : Bool) (s : RenderState) : Bool × List FireCall :=
  if s.autoTrigger = true ∧ latch = false ∧ s.messages.length > 0 ∧ s.isStreaming = false then
    match s.messages.head? with
    | some m =>
      if m.role = .user then (true, [⟨m.content, true⟩]) else (latch, [])
    | none => (latch, [])
  else (latch, [])

/-- The effect re-run on every render of the view's lifetime, threading the
`hasAutoTriggered` ref through. -/
def autoTriggerRun (latch : Bool) : List RenderState → Bool × List FireCall
  | [] => (latch, [])
  | s :: rest =>
    let step := autoTriggerStep latch s
    let restRun := autoTriggerRun step.1 rest
    (restRun.1, step.2 ++ restRun.2)

/-! ### Store lemmas -/

theorem lookup_setEntry {α : Type} (l : List (Nat × α)) (id x : Nat) (c : α) :
    lookupId x (setEntry id c l) =
      if x = id then (lookupId id l).map (fun _ => c) else lookupId x l := by
  induction l with
  | nil => by_cases hx : x = id <;> simp [lookupId, setEntry, hx]
  | cons p rest ih =>
    obtain ⟨k, v⟩ := p
    by_cases hk : k = id
    · subst hk
      by_cases hx : x = k
      · subst hx; simp [lookupId, setEntry]
      · simp [lookupId, setEntry, hx, ih]
    · have hk' : id ≠ k := fun h => hk h.symm
      by_cases hx : x = id
      · subst hx
        simp [lookupId, setEntry, hk, hk', ih]
      · by_cases hxk : x = k
        · subst hxk; simp [lookupId, setEntry, hk, hx]
        · simp [lookupId, setEntry, hk, hx, hxk, ih]

theorem lookup_cons_ne {α : Type} (l : List (Nat × α)) (k x : Nat) (c : α)
    (h : x ≠ k) : lookupId x ((k, c) :: l) = lookupId x l := by
  simp [lookupId, h]

theorem lookup_mem {α : Type} {l : List (Nat × α)} {x : Nat} {v : α}
    (h : lookupId x l = some v) : ∃ p ∈ l, p.1 = x := by
  induction l with
  | nil => simp [lookupId] at h
  | cons p rest ih =>
    obtain ⟨k, w⟩ := p
    by_cases hk : x = k
    · exact ⟨(k, w), List.mem_cons_self _ _, hk.symm⟩
    · have h' : lookupId x rest = some v := by simpa [lookupId, hk] using h
      obtain ⟨q, hq, hqx⟩ := ih h'
      exact ⟨q, List.mem_cons_of_mem _ hq, hqx⟩

theorem DB.getChat_setChat (db : DB) (id x : Nat) (c : Chat) :
    (db.setChat id c).getChat x =
      if x = id then (db.getChat id).map (fun _ => c) else db.getChat x :=
  lookup_setEntry db.chats id x c

theorem DB.getMessage_setMessage (db : DB) (id x : Nat) (m : Message) :
    (db.setMessage id m).getMessage x =
      if x = id then (db.getMessage id).map (fun _ => m) else db.getMessage x :=
  lookup_setEntry db.messages id x m

theorem DB.getChat_setMessage (db : DB) (id x : Nat) (m : Message) :
    (db.setMessage id m).getChat x = db.getChat x := rfl

theorem DB.getMessage_setChat (db : DB) (id x : Nat) (c : Chat) :
    (db.setChat id c).getMessage x = db.getMessage x := rfl

/-! ### Concrete fixtures for witnesses and counterexamples -/

/-- A live chat owned by user `"A"`. -/
def chatA : Chat :=
  { name := "pets", userId := "A", createdAt := 0, updatedAt := 0,
    isDeleted := false, messageCount := 1 }

/-- A soft-deleted chat owned by user `"A"` (terminal state of `softDeleteChat`). -/
def chatDel : Chat :=
  { name := "", userId := "A", createdAt := 0, updatedAt := 2,
    isDeleted := true, messageCount := 1 }

/-- An in-flight assistant message living in the soft-deleted chat `1`. -/
def msgDel : Message :=
  { chatId := 1, role := .assistant, content := "hi", status := .streaming,
    createdAt := 1, updatedAt := none, tokens := 1 }

/-- Store with one live chat (id 0) and one soft-deleted chat (id 1). -/
def dbA : DB :=
  { chats := [(0, chatA), (1, chatDel)], messages := [(0, msgDel)],
    nextChatId := 2, nextMessageId := 1 }

/-! ### C1 -/

/-- C1: for a chat owned by `A` and any other user `B`, `getChatById` run as
`B` returns `none`, and it also returns `none` (the same value, hence
indistinguishably) when the chat does not exist or is soft-deleted; `B`'s
`renameChat`, `softDeleteChat` and `createMessage` on that chat throw an
authorization error instead of returning absent. -/
theorem ownership_isolation (db : DB) (A B : String) (cid : Nat) (chat : Chat)
    (hc : db.getChat cid = some chat) (hA : chat.userId = A) (hBA : B ≠ A)
    (now : Nat) (nm : String) (role : Role) (content : String) :
    getChatById db (some B) cid = none ∧
    (∀ cid2, db.getChat cid2 = none → getChatById db (some B) cid2 = none) ∧
    (∀ cid3 c, db.getChat cid3 = some c → c.isDeleted = true →
      getChatById db (some B) cid3 = none) ∧
    renameChat db (some B) now cid nm = .error "Unauthorized" ∧
    softDeleteChat db (some B) now cid = .error "Unauthorized" ∧
    createMessage db (some B) now cid role content =
      .error "Unauthorized or chat not found" := by
  have hni : chat.userId ≠ B := by rw [hA]; exact fun h => hBA h.symm
  refine ⟨?_, ?_, ?_, ?_, ?_, ?_⟩
  · simp [getChatById, hc, hni]
  · intro cid2 h2; simp [getChatById, h2]
  · intro cid3 c h3 hd; simp [getChatById, h3, hd]
  · simp [renameChat, hc, hni]
  · simp [softDeleteChat, hc, hni]
  · simp [createMessage, hc, hni]

/-- C1 witness: the hypotheses of `ownership_isolation` hold at the concrete
store `dbA`, user `"B"` reading user `"A"`'s chat `0`. -/
theorem ownership_isolation_witness :
    dbA.getChat 0 = some chatA ∧ ("B" : String) ≠ "A" ∧
    getChatById dbA (some "B") 0 = none :=
  ⟨by decide, by decide,
    (ownership_isolation dbA "A" "B" 0 chatA (by decide) (by decide) (by decide)
      5 "n" Role.user "hi").1⟩

/-! ### C5 -/

/-- C5: a successful `createMessage` stores a message whose status is `sent`
for role `user` and `pending` otherwise, whose token estimate is
`ceil(length/4)` (characterised as the least `k` with `length ≤ 4*k`), and in
the same operation bumps the parent chat's `messageCount` by one and its
`updatedAt` to the operation timestamp. -/
theorem createMessage_spec (db : DB) (u : String) (now cid : Nat) (role : Role)
    (content : String) (chat : Chat) (hc : db.getChat cid = some chat)
    (hu : chat.userId = u) (hnd : chat.isDeleted = false) :
    ∃ db2 mid,
      createMessage db (some u) now cid role content = .ok (db2, mid) ∧
      db2.getMessage mid = some
        { chatId := cid, role := role, content := content,
          status := if role = .user then .sent else .pending,
          createdAt := now, updatedAt := none,
          tokens := tokenEstimate content.length } ∧
      content.length ≤ 4 * tokenEstimate content.length ∧
      (∀ k, content.length ≤ 4 * k → tokenEstimate content.length ≤ k) ∧
      db2.getChat cid = some
        { chat with updatedAt := now, messageCount := chat.messageCount + 1 } := by
  refine ⟨({ db with
      messages := (db.nextMessageId,
        { chatId := cid, role := role, content := content,
          status := if role = .user then .sent else .pending,
          createdAt := now, updatedAt := none,
          tokens := tokenEstimate content.length }) :: db.messages,
      nextMessageId := db.nextMessageId + 1 } : DB).setChat cid
        { chat with updatedAt := now, messageCount := chat.messageCount + 1 },
    db.nextMessageId, ?_, ?_, ?_, ?_, ?_⟩
  · simp [createMessage, hc, hu, hnd]
  · simp [DB.getMessage, DB.setChat, lookupId]
  · unfold tokenEstimate; omega
  · intro k hk; unfold tokenEstimate; omega
  · rw [DB.getChat_setChat]
    have hstill : DB.getChat { db with
        messages := (db.nextMessageId,
          { chatId := cid, role := role, content := content,
            status := if role = .user then .sent else .pending,
            createdAt := now, updatedAt := none,
            tokens := tokenEstimate content.length }) :: db.messages,
        nextMessageId := db.nextMessageId + 1 } cid = some chat := hc
    simp [hstill]

/-- C5 witness: `createMessage` by the owner on the live chat `0` of `dbA`,
assistant role, content `"okay!"` (length 5, token estimate 2). -/
theorem createMessage_spec_witness :
    dbA.getChat 0 = some chatA ∧ chatA.userId = "A" ∧ chatA.isDeleted = false ∧
    (∃ db2 mid,
      createMessage dbA (some "A") 7 0 Role.assistant "okay!" = .ok (db2, mid) ∧
      db2.getMessage mid = some
        { chatId := 0, role := .assistant, content := "okay!",
          status := if Role.assistant = Role.user then .sent else .pending,
          createdAt := 7, updatedAt := none,
          tokens := tokenEstimate "okay!".length } ∧
      "okay!".length ≤ 4 * tokenEstimate "okay!".length ∧
      (∀ k, "okay!".length ≤ 4 * k → tokenEstimate "okay!".length ≤ k) ∧
      db2.getChat 0 = some
        { chatA with updatedAt := 7, messageCount := chatA.messageCount + 1 }) :=
  ⟨by decide, by decide, by decide,
    createMessage_spec dbA "A" 7 0 Role.assistant "okay!" chatA
      (by decide) (by decide) (by decide)⟩

/-! ### Success normal form of `updateMessage` -/

/-- The patched message a successful `updateMessage` stores (the `updates`
object of the handler applied to the fetched message). -/
def msgAfter (now : Nat) (content : Option String) (status : Option MsgStatus)
    (append : Option Bool) (msg : Message) : Message :=
  let m1 : Message :=
    match status with
    | some s => { msg with status := s }
    | none => msg
  match content with
  | none => m1
  | some c =>
    if append = some true ∧ msg.content ≠ "" then
      { m1 with content := msg.content ++ c, updatedAt := some now }
    else
      { m1 with content := c, updatedAt := some now }

/-- The store a successful `updateMessage` leaves behind: the message patch,
plus the parent-chat `updatedAt` patch when the status transitions into
`sent` from a non-`sent` state. -/
def updateResult (db : DB) (now mid : Nat) (content : Option String)
    (status : Option MsgStatus) (append : Option Bool)
    (msg : Message) (chat : Chat) : DB :=
  let db1 := db.setMessage mid (msgAfter now content status append msg)
  if status = some .sent ∧ msg.status ≠ .sent then
    db1.setChat msg.chatId { chat with updatedAt := now }
  else db1

theorem updateMessage_ok (db : DB) (u : String) (now mid : Nat)
    (content : Option String) (status : Option MsgStatus) (append : Option Bool)
    (msg : Message) (chat : Chat)
    (hm : db.getMessage mid = some msg) (hc : db.getChat msg.chatId = some chat)
    (hu : chat.userId = u) :
    updateMessage db (some u) now mid content status append =
      .ok (updateResult db now mid content status append msg chat) := by
  simp [updateMessage, updateResult, msgAfter, hm, hc, hu]

theorem updateResult_getMessage_self (db : DB) (now mid : Nat)
    (content : Option String) (status : Option MsgStatus) (append : Option Bool)
    (msg : Message) (chat : Chat) (hm : db.getMessage mid = some msg) :
    (updateResult db now mid content status append msg chat).getMessage mid =
      some (msgAfter now content status append msg) := by
  unfold updateResult
  split <;> simp [DB.getMessage_setChat, DB.getMessage_setMessage, hm]

theorem updateResult_getChat (db : DB) (now mid : Nat)
    (content : Option String) (status : Option MsgStatus) (append : Option Bool)
    (msg : Message) (chat : Chat) (x : Nat) :
    (updateResult db now mid content status append msg chat).getChat x =
      if status = some .sent ∧ msg.status ≠ .sent then
        (if x = msg.chatId then
          (db.getChat msg.chatId).map (fun _ => { chat with updatedAt := now })
        else db.getChat x)
      else db.getChat x := by
  unfold updateResult
  split <;> simp [DB.getChat_setChat, DB.getChat_setMessage]

theorem msgAfter_status (now : Nat) (content : Option String) (s : MsgStatus)
    (append : Option Bool) (msg : Message) :
    (msgAfter now content (some s) append msg).status = s := by
  rcases content with _ | c
  · rfl
  · simp only [msgAfter]
    split <;> rfl

theorem msgAfter_chatId (now : Nat) (content : Option String)
    (status : Option MsgStatus) (append : Option Bool) (msg : Message) :
    (msgAfter now content status append msg).chatId = msg.chatId := by
  rcases content with _ | c <;> rcases status with _ | s <;>
    simp [msgAfter] <;> split <;> rfl

/-! ### C7 -/

/-- C7: when `updateMessage` supplies content, the stored content is the
concatenation `existing ++ new` exactly when `append` is true and the
existing content is non-empty, and is replaced wholesale otherwise; a content
change stamps the message's `updatedAt`, while a status-only update leaves
both content and `updatedAt` unchanged. -/
theorem updateMessage_content_semantics (db : DB) (u : String) (now mid : Nat)
    (msg : Message) (chat : Chat)
    (hm : db.getMessage mid = some msg) (hc : db.getChat msg.chatId = some chat)
    (hu : chat.userId = u)
    (c : String) (st : Option MsgStatus) (ap : Option Bool) :
    (∃ db1, updateMessage db (some u) now mid (some c) st ap = .ok db1 ∧
      (db1.getMessage mid).map Message.content =
        some (if ap = some true ∧ msg.content ≠ "" then msg.content ++ c else c) ∧
      (db1.getMessage mid).map Message.updatedAt = some (some now)) ∧
    (∃ db2, updateMessage db (some u) now mid none st ap = .ok db2 ∧
      (db2.getMessage mid).map Message.content = some msg.content ∧
      (db2.getMessage mid).map Message.updatedAt = some msg.updatedAt) := by
  constructor
  · refine ⟨_, updateMessage_ok db u now mid (some c) st ap msg chat hm hc hu, ?_, ?_⟩ <;>
      rw [updateResult_getMessage_self db now mid (some c) st ap msg chat hm] <;>
        rcases st with _ | s <;> by_cases hap : ap = some true ∧ msg.content ≠ "" <;>
          simp [msgAfter, hap]
  · refine ⟨_, updateMessage_ok db u now mid none st ap msg chat hm hc hu, ?_, ?_⟩ <;>
      rw [updateResult_getMessage_self db now mid none st ap msg chat hm] <;>
        rcases st with _ | s <;> simp [msgAfter]

/-- C7 witness: content update with `append = some true` on the non-empty
message `msgDel` of `dbA` (owner `"A"`), status also set. -/
theorem updateMessage_content_semantics_witness :
    dbA.getMessage 0 = some msgDel ∧ dbA.getChat msgDel.chatId = some chatDel ∧
    chatDel.userId = "A" ∧
    (∃ db1, updateMessage dbA (some "A") 9 0 (some "!") (some .sent) (some true) = .ok db1 ∧
      (db1.getMessage 0).map Message.content =
        some (if (some true : Option Bool) = some true ∧ msgDel.content ≠ "" then
          msgDel.content ++ "!" else "!") ∧
      (db1.getMessage 0).map Message.updatedAt = some (some 9)) :=
  ⟨by decide, by decide, by decide,
    (updateMessage_content_semantics dbA "A" 9 0 msgDel chatDel (by decide) (by decide)
      (by decide) "!" (some .sent) (some true)).1⟩

/-! ### C6 -/

/-- C6: a successful `updateMessage` with status `sent` bumps the parent
chat's `updatedAt` exactly when the message's prior status was not `sent`,
and a second mark-sent call on the now-`sent` message leaves the parent
chat's `updatedAt` unchanged. -/
theorem mark_sent_idempotent (db : DB) (u : String) (now1 now2 mid : Nat)
    (msg : Message) (chat : Chat)
    (hm : db.getMessage mid = some msg) (hc : db.getChat msg.chatId = some chat)
    (hu : chat.userId = u)
    (c1 c2 : Option String) (a1 a2 : Option Bool) :
    ∃ db1 db2,
      updateMessage db (some u) now1 mid c1 (some .sent) a1 = .ok db1 ∧
      (db1.getChat msg.chatId).map Chat.updatedAt =
        some (if msg.status = .sent then chat.updatedAt else now1) ∧
      updateMessage db1 (some u) now2 mid c2 (some .sent) a2 = .ok db2 ∧
      (db2.getChat msg.chatId).map Chat.updatedAt =
        (db1.getChat msg.chatId).map Chat.updatedAt := by
  have h1 := updateMessage_ok db u now1 mid c1 (some .sent) a1 msg chat hm hc hu
  have hm1 := updateResult_getMessage_self db now1 mid c1 (some .sent) a1 msg chat hm
  have hgc1 : (updateResult db now1 mid c1 (some .sent) a1 msg chat).getChat msg.chatId =
      some (if msg.status = .sent then chat else { chat with updatedAt := now1 }) := by
    rw [updateResult_getChat]
    by_cases hs : msg.status = .sent <;> simp [hs, hc]
  have hst2 : (msgAfter now1 c1 (some .sent) a1 msg).status = .sent :=
    msgAfter_status now1 c1 .sent a1 msg
  have hc1' : (updateResult db now1 mid c1 (some .sent) a1 msg chat).getChat
      (msgAfter now1 c1 (some .sent) a1 msg).chatId =
      some (if msg.status = .sent then chat else { chat with updatedAt := now1 }) := by
    rw [msgAfter_chatId]; exact hgc1
  have hu' : (if msg.status = .sent then chat else { chat with updatedAt := now1 }).userId = u := by
    by_cases hs : msg.status = .sent <;> simp [hs, hu]
  have h2 := updateMessage_ok (updateResult db now1 mid c1 (some .sent) a1 msg chat)
    u now2 mid c2 (some .sent) a2 (msgAfter now1 c1 (some .sent) a1 msg)
    (if msg.status = .sent then chat else { chat with updatedAt := now1 }) hm1 hc1' hu'
  refine ⟨_, _, h1, ?_, h2, ?_⟩
  · rw [hgc1]; by_cases hs : msg.status = .sent <;> simp [hs]
  · rw [updateResult_getChat]; simp [hst2]

/-- C6 witness: marking the streaming message `msgDel` of `dbA` as sent twice. -/
theorem mark_sent_idempotent_witness :
    dbA.getMessage 0 = some msgDel ∧ dbA.getChat msgDel.chatId = some chatDel ∧
    chatDel.userId = "A" ∧
    (∃ db1 db2,
      updateMessage dbA (some "A") 11 0 none (some .sent) none = .ok db1 ∧
      (db1.getChat msgDel.chatId).map Chat.updatedAt =
        some (if msgDel.status = .sent then chatDel.updatedAt else 11) ∧
      updateMessage db1 (some "A") 13 0 none (some .sent) none = .ok db2 ∧
      (db2.getChat msgDel.chatId).map Chat.updatedAt =
        (db1.getChat msgDel.chatId).map Chat.updatedAt) :=
  ⟨by decide, by decide, by decide,
    mark_sent_idempotent dbA "A" 11 13 0 msgDel chatDel (by decide) (by decide)
      (by decide) none none none none⟩

/-! ### C10 -/

/-- C10: `updateMessage` authorizes only through the parent chat's owner and
ignores the soft-delete flag: on a message of a soft-deleted chat the owner's
update succeeds and mutates content and status, while `createMessage` and
`getChatMessages` on that same chat throw. -/
theorem updateMessage_ignores_soft_delete (db : DB) (u : String) (now mid : Nat)
    (msg : Message) (chat : Chat)
    (hm : db.getMessage mid = some msg) (hc : db.getChat msg.chatId = some chat)
    (hu : chat.userId = u) (hd : chat.isDeleted = true)
    (c : String) (st : MsgStatus) (ap : Option Bool)
    (role : Role) (content2 : String) :
    (∃ db1, updateMessage db (some u) now mid (some c) (some st) ap = .ok db1 ∧
      (db1.getMessage mid).map Message.status = some st ∧
      (db1.getMessage mid).map Message.content =
        some (if ap = some true ∧ msg.content ≠ "" then msg.content ++ c else c)) ∧
    createMessage db (some u) now msg.chatId role content2 =
      .error "Unauthorized or chat not found" ∧
    getChatMessages db (some u) msg.chatId = .error "Chat not found or unauthorized" := by
  refine ⟨⟨_, updateMessage_ok db u now mid (some c) (some st) ap msg chat hm hc hu, ?_, ?_⟩,
    ?_, ?_⟩
  · rw [updateResult_getMessage_self db now mid (some c) (some st) ap msg chat hm]
    simp [msgAfter_status]
  · rw [updateResult_getMessage_self db now mid (some c) (some st) ap msg chat hm]
    by_cases hap : ap = some true ∧ msg.content ≠ "" <;> simp [msgAfter, hap]
  · simp [createMessage, hc, hd]
  · simp [getChatMessages, hc, hd]

/-- C10 witness: `msgDel` lives in the soft-deleted chat `1` of `dbA`; its
owner's `updateMessage` succeeds while `createMessage`/`getChatMessages`
throw. -/
theorem updateMessage_ignores_soft_delete_witness :
    dbA.getMessage 0 = some msgDel ∧ dbA.getChat msgDel.chatId = some chatDel ∧
    chatDel.userId = "A" ∧ chatDel.isDeleted = true ∧
    (∃ db1, updateMessage dbA (some "A") 15 0 (some "done") (some .sent) none = .ok db1 ∧
      (db1.getMessage 0).map Message.status = some .sent ∧
      (db1.getMessage 0).map Message.content =
        some (if (none : Option Bool) = some true ∧ msgDel.content ≠ "" then
          msgDel.content ++ "done" else "done")) ∧
    createMessage dbA (some "A") 15 msgDel.chatId Role.user "x" =
      .error "Unauthorized or chat not found" ∧
    getChatMessages dbA (some "A") msgDel.chatId = .error "Chat not found or unauthorized" :=
  ⟨by decide, by decide, by decide, by decide,
    (updateMessage_ignores_soft_delete dbA "A" 15 0 msgDel chatDel (by decide) (by decide)
      (by decide) (by decide) "done" .sent none Role.user "x").1,
    (updateMessage_ignores_soft_delete dbA "A" 15 0 msgDel chatDel (by decide) (by decide)
      (by decide) (by decide) "done" .sent none Role.user "x").2.1,
    (updateMessage_ignores_soft_delete dbA "A" 15 0 msgDel chatDel (by decide) (by decide)
      (by decide) (by decide) "done" .sent none Role.user "x").2.2⟩

/-! ### C3 -/

theorem applyOp_keeps_deleted (db : DB) (hwf : db.WF) (ident : Option String)
    (now : Nat) (op : Op) (cid : Nat) (chat : Chat)
    (hc : db.getChat cid = some chat) (hd : chat.isDeleted = true) :
    ∃ c', (applyOp db ident now op).getChat cid = some c' ∧ c'.isDeleted = true := by
  cases op with
  | createChat n im =>
    rcases ident with _ | u
    · exact ⟨chat, by simp [applyOp, createChat, hc], hd⟩
    · have hlt : cid < db.nextChatId := by
        obtain ⟨p, hp, hpx⟩ := lookup_mem hc
        exact hpx ▸ hwf.1 p hp
      have hne : cid ≠ db.nextChatId := Nat.ne_of_lt hlt
      rcases im with _ | im <;>
        · refine ⟨chat, ?_, hd⟩
          simp only [applyOp, createChat]
          show lookupId cid ((db.nextChatId, _) :: db.chats) = some chat
          rw [lookup_cons_ne _ _ _ _ hne]
          exact hc
  | createMessage cid2 r c =>
    rcases ident with _ | u
    · exact ⟨chat, by simp [applyOp, createMessage, hc], hd⟩
    · rcases hg : db.getChat cid2 with _ | chat2
      · exact ⟨chat, by simp [applyOp, createMessage, hg, hc], hd⟩
      · by_cases hcond : chat2.userId ≠ u ∨ chat2.isDeleted = true
        · refine ⟨chat, ?_, hd⟩
          simp only [applyOp, createMessage, hg]
          rw [if_pos hcond]
          exact hc
        · refine ⟨if cid = cid2 then
              { chat2 with updatedAt := now, messageCount := chat2.messageCount + 1 }
            else chat, ?_, ?_⟩
          · simp only [applyOp, createMessage, hg]
            rw [if_neg hcond]
            rw [DB.getChat_setChat]
            by_cases hcc : cid = cid2
            · subst hcc
              have : DB.getChat { db with
                  messages := (db.nextMessageId,
                    { chatId := cid, role := r, content := c,
                      status := if r = .user then .sent else .pending,
                      createdAt := now, updatedAt := none,
                      tokens := tokenEstimate c.length }) :: db.messages,
                  nextMessageId := db.nextMessageId + 1 } cid = some chat2 := hg
              simp [this]
            · have : DB.getChat { db with
                  messages := (db.nextMessageId,
                    { chatId := cid2, role := r, content := c,
                      status := if r = .user then .sent else .pending,
                      createdAt := now, updatedAt := none,
                      tokens := tokenEstimate c.length }) :: db.messages,
                  nextMessageId := db.nextMessageId + 1 } cid = some chat := hc
              simp [hcc, this]
          · by_cases hcc : cid = cid2
            · subst hcc
              rw [hg] at hc
              injection hc with h
              simp [h, hd]
            · simp [hcc, hd]
  | updateMessage mid c s a =>
    rcases ident with _ | u
    · exact ⟨chat, by simp [applyOp, updateMessage, hc], hd⟩
    · rcases hgm : db.getMessage mid with _ | msg
      · exact ⟨chat, by simp [applyOp, updateMessage, hgm, hc], hd⟩
      · rcases hgc : db.getChat msg.chatId with _ | chat3
        · exact ⟨chat, by simp [applyOp, updateMessage, hgm, hgc, hc], hd⟩
        · by_cases hau : chat3.userId = u
          · have hok := updateMessage_ok db u now mid c s a msg chat3 hgm hgc hau
            have hres : applyOp db (some u) now (.updateMessage mid c s a) =
                updateResult db now mid c s a msg chat3 := by
              simp [applyOp, hok]
            rw [hres, updateResult_getChat]
            by_cases hbump : s = some MsgStatus.sent ∧ msg.status ≠ .sent
            · by_cases hcc : cid = msg.chatId
              · subst hcc
                rw [hgc] at hc
                injection hc with h
                exact ⟨{ chat3 with updatedAt := now }, by simp [hbump, hgc], by simp [h, hd]⟩
              · exact ⟨chat, by simp [hbump, hcc, hc], hd⟩
            · exact ⟨chat, by simp [hbump, hc], hd⟩
          · refine ⟨chat, ?_, hd⟩
            simp only [applyOp, updateMessage, hgm, hgc]
            rw [if_pos hau]
            exact hc
  | softDeleteChat cid2 =>
    rcases ident with _ | u
    · exact ⟨chat, by simp [applyOp, softDeleteChat, hc], hd⟩
    · rcases hg : db.getChat cid2 with _ | chat2
      · exact ⟨chat, by simp [applyOp, softDeleteChat, hg, hc], hd⟩
      · by_cases hau : chat2.userId = u
        · refine ⟨if cid = cid2 then
              { chat2 with isDeleted := true, updatedAt := now, name := "" }
            else chat, ?_, ?_⟩
          · simp only [applyOp, softDeleteChat, hg, hau]
            rw [if_neg (by simp), DB.getChat_setChat]
            by_cases hcc : cid = cid2
            · subst hcc; simp [hg]
            · simp [hcc, hc]
          · by_cases hcc : cid = cid2 <;> simp [hcc, hd]
        · refine ⟨chat, ?_, hd⟩
          simp only [applyOp, softDeleteChat, hg]
          rw [if_pos hau]
          exact hc
  | renameChat cid2 n =>
    rcases ident with _ | u
    · exact ⟨chat, by simp [applyOp, renameChat, hc], hd⟩
    · rcases hg : db.getChat cid2 with _ | chat2
      · exact ⟨chat, by simp [applyOp, renameChat, hg, hc], hd⟩
      · by_cases hau : chat2.userId = u
        · refine ⟨if cid = cid2 then { chat2 with name := strTrim n, updatedAt := now }
            else chat, ?_, ?_⟩
          · simp only [applyOp, renameChat, hg, hau]
            rw [if_neg (by simp), DB.getChat_setChat]
            by_cases hcc : cid = cid2
            · subst hcc; simp [hg]
            · simp [hcc, hc]
          · by_cases hcc : cid = cid2
            · subst hcc
              rw [hg] at hc
              injection hc with h
              simp [h, hd]
            · simp [hcc, hd]
        · refine ⟨chat, ?_, hd⟩
          simp only [applyOp, renameChat, hg]
          rw [if_pos hau]
          exact hc

/-- C3 counterexample: the claim "isDeleted=true implies name=\"\" is
preserved by every public operation — no rename of a soft-deleted chat is
reachable" is false: on the concrete store `dbA`, the owner's `renameChat` of
the soft-deleted chat `1` succeeds and leaves a chat with `isDeleted = true`
and the non-empty name `"resurrected"`. -/
theorem softdelete_terminal_cex :
    (renameChat dbA (some "A") 21 1 "resurrected").toOption.map
        (fun d => (d.getChat 1).map fun ch => (ch.isDeleted, ch.name)) =
      some (some (true, "resurrected")) := by decide

/-- C3 (amended): after `softDeleteChat(user, chatId)` succeeds the chat has
`isDeleted = true` and `name = ""`, and `isDeleted = true` is preserved by
every public mutation (no undelete is reachable); however `renameChat` does
not check the soft-delete flag, so the owner's rename of a soft-deleted chat
succeeds and sets the trimmed new name — `isDeleted = true → name = ""` is
not preserved by every public operation. -/
theorem softdelete_terminal_amended (db : DB) (hwf : db.WF) (u : String)
    (now now2 : Nat) (cid : Nat) (chat : Chat)
    (hc : db.getChat cid = some chat) (hu : chat.userId = u)
    (ident : Option String) (op : Op) (nm : String) :
    (∃ db1, softDeleteChat db (some u) now cid = .ok db1 ∧
      db1.getChat cid = some { chat with isDeleted := true, updatedAt := now, name := "" }) ∧
    (chat.isDeleted = true →
      ∃ c', (applyOp db ident now2 op).getChat cid = some c' ∧ c'.isDeleted = true) ∧
    (chat.isDeleted = true →
      ∃ db2, renameChat db (some u) now cid nm = .ok db2 ∧
        db2.getChat cid = some { chat with name := strTrim nm, updatedAt := now }) := by
  refine ⟨?_, fun hd => applyOp_keeps_deleted db hwf ident now2 op cid chat hc hd, ?_⟩
  · refine ⟨db.setChat cid { chat with isDeleted := true, updatedAt := now, name := "" },
      ?_, ?_⟩
    · simp [softDeleteChat, hc, hu]
    · rw [DB.getChat_setChat]; simp [hc]
  · intro hd
    refine ⟨db.setChat cid { chat with name := strTrim nm, updatedAt := now }, ?_, ?_⟩
    · simp [renameChat, hc, hu]
    · rw [DB.getChat_setChat]; simp [hc]

/-- C3 witness: the amended statement instantiated on `dbA`, its soft-deleted
chat `1`, owner `"A"`, and the public mutation `renameChat 1 "zzz"`. -/
theorem softdelete_terminal_amended_witness :
    dbA.WF ∧ dbA.getChat 1 = some chatDel ∧ chatDel.userId = "A" ∧
    chatDel.isDeleted = true ∧
    (∃ c', (applyOp dbA (some "A") 23 (.renameChat 1 "zzz")).getChat 1 = some c' ∧
      c'.isDeleted = true) :=
  ⟨by decide, by decide, by decide, by decide,
    (softdelete_terminal_amended dbA (by decide) "A" 21 23 1 chatDel (by decide)
      (by decide) (some "A") (.renameChat 1 "zzz") "zzz").2.1 (by decide)⟩

/-! ### C8 -/

/-- C8: the request the route forwards begins with a system instruction; a
list whose first message already has role `system` is forwarded unchanged,
otherwise the fixed system prompt is prepended once; the number of
system-role messages grows by one exactly in the prepend case (never
duplicated). -/
theorem system_prompt_exactly_once (sp : String) (msgs : List ApiMessage)
    (hne : msgs ≠ []) :
    ((fullMessages sp msgs).head?.map ApiMessage.role = some .system) ∧
    (∀ m, msgs.head? = some m → m.role = .system → fullMessages sp msgs = msgs) ∧
    (∀ m, msgs.head? = some m → m.role ≠ .system →
      fullMessages sp msgs = ⟨.system, sp⟩ :: msgs ∧
      ((fullMessages sp msgs).drop 1).head?.map ApiMessage.role = some m.role) ∧
    ((fullMessages sp msgs).countP (fun m => decide (m.role = .system)) =
      msgs.countP (fun m => decide (m.role = .system)) +
        (if msgs.head?.map ApiMessage.role = some .system then 0 else 1)) := by
  rcases msgs with _ | ⟨m0, rest⟩
  · exact absurd rfl hne
  by_cases h0 : m0.role = .system
  · refine ⟨?_, ?_, ?_, ?_⟩
    · simp [fullMessages, h0]
    · intro m hm hr; simp [fullMessages, h0]
    · intro m hm hr
      have hm0 : m0 = m := by simpa using hm
      exact absurd (hm0 ▸ h0) hr
    · simp [fullMessages, h0]
  · refine ⟨?_, ?_, ?_, ?_⟩
    · simp [fullMessages, h0]
    · intro m hm hr
      have hm0 : m0 = m := by simpa using hm
      exact absurd (hm0 ▸ hr) h0
    · intro m hm hr
      have hm0 : m0 = m := by simpa using hm
      subst hm0
      exact ⟨by simp [fullMessages, h0], by simp [fullMessages, h0]⟩
    · simp [fullMessages, h0, List.countP_cons]

/-- C8 witness: a single user message gets the system prompt prepended. -/
theorem system_prompt_exactly_once_witness :
    ([⟨Role.user, "hello"⟩] : List ApiMessage) ≠ [] ∧
    (fullMessages "SP" [⟨Role.user, "hello"⟩]).head?.map ApiMessage.role =
      some .system ∧
    fullMessages "SP" [⟨Role.system, "custom"⟩, ⟨Role.user, "hello"⟩] =
      [⟨Role.system, "custom"⟩, ⟨Role.user, "hello"⟩] :=
  ⟨by decide,
    (system_prompt_exactly_once "SP" [⟨Role.user, "hello"⟩] (by decide)).1,
    (system_prompt_exactly_once "SP" [⟨Role.system, "custom"⟩, ⟨Role.user, "hello"⟩]
      (by decide)).2.1 ⟨Role.system, "custom"⟩ rfl rfl⟩

/-! ### C4 -/

theorem persistedContents_streamLoop (acc : String) (frags : List String) :
    (streamLoopCalls acc frags).filterMap PersistCall.content =
      runningBuffers acc frags := by
  induction frags generalizing acc with
  | nil => rfl
  | cons f fs ih => simp [streamLoopCalls, runningBuffers, List.filterMap_cons, ih]

theorem runningBuffers_getLast (acc : String) (frags : List String) (h : frags ≠ []) :
    (runningBuffers acc frags).getLast? = some (accumulate acc frags) := by
  induction frags generalizing acc with
  | nil => exact absurd rfl h
  | cons f fs ih =>
    rcases fs with _ | ⟨g, gs⟩
    · simp [runningBuffers, accumulate]
    · have hexp : runningBuffers (acc ++ f) (g :: gs) =
          (acc ++ f ++ g) :: runningBuffers (acc ++ f ++ g) gs := rfl
      rw [runningBuffers, hexp, List.getLast?_cons_cons, ← hexp, ih (acc ++ f) (by simp)]
      rfl

theorem self_ne_append (s g : String) (h : g ≠ "") : s ≠ s ++ g := by
  intro he
  apply h
  have hlen : s.length = s.length + g.length := by
    conv_lhs => rw [he]
    exact String.length_append s g
  have hg : g.length = 0 := by omega
  cases g with
  | mk data =>
    cases data with
    | nil => rfl
    | cons a l => simp [String.length] at hg

theorem dedupAdj_buffers (acc : String) (frags : List String)
    (hne : frags ≠ []) (hfr : ∀ f ∈ frags, f ≠ "") :
    dedupAdj (runningBuffers acc frags ++ [accumulate acc frags]) =
      runningBuffers acc frags := by
  induction frags generalizing acc with
  | nil => exact absurd rfl hne
  | cons f fs ih =>
    rcases fs with _ | ⟨g, gs⟩
    · simp [runningBuffers, accumulate, dedupAdj]
    · have hg : g ≠ "" := hfr g (by simp)
      have hneq : acc ++ f ≠ acc ++ f ++ g := self_ne_append (acc ++ f) g hg
      have hrec := ih (acc ++ f) (by simp) (fun x hx => hfr x (by simp [hx]))
      calc dedupAdj (runningBuffers acc (f :: g :: gs) ++ [accumulate acc (f :: g :: gs)])
          = dedupAdj ((acc ++ f) :: ((acc ++ f ++ g) ::
              (runningBuffers (acc ++ f ++ g) gs ++ [accumulate (acc ++ f) (g :: gs)]))) := rfl
        _ = (acc ++ f) :: dedupAdj ((acc ++ f ++ g) ::
              (runningBuffers (acc ++ f ++ g) gs ++ [accumulate (acc ++ f) (g :: gs)])) := by
            rw [dedupAdj, if_neg hneq]
        _ = (acc ++ f) :: dedupAdj (runningBuffers (acc ++ f) (g :: gs) ++
              [accumulate (acc ++ f) (g :: gs)]) := rfl
        _ = (acc ++ f) :: runningBuffers (acc ++ f) (g :: gs) := by rw [hrec]
        _ = runningBuffers acc (f :: g :: gs) := rfl

/-- C4: on a normal completion the controller's persisted contents are the
running prefixes `f1, f1++f2, …` in order — each a whole-content replace — the
distinct contents passed through are exactly those prefixes (the terminal call
re-persists the last prefix), and the final persistence carries the full
accumulation with status `sent`. -/
theorem streaming_persists_running_prefixes (frags : List String)
    (hne : frags ≠ []) (hfr : ∀ f ∈ frags, f ≠ "") :
    persistedContents (sendPersistTrace frags .completed) =
      runningBuffers "" frags ++ [accumulate "" frags] ∧
    (runningBuffers "" frags).getLast? = some (accumulate "" frags) ∧
    dedupAdj (persistedContents (sendPersistTrace frags .completed)) =
      runningBuffers "" frags ∧
    (sendPersistTrace frags .completed).getLast? =
      some ⟨some (accumulate "" frags), some .sent, none⟩ := by
  have h1 : persistedContents (sendPersistTrace frags .completed) =
      runningBuffers "" frags ++ [accumulate "" frags] := by
    simp [sendPersistTrace, persistedContents, List.filterMap_cons,
      List.filterMap_append, persistedContents_streamLoop]
  refine ⟨h1, runningBuffers_getLast "" frags hne, ?_, ?_⟩
  · rw [h1]; exact dedupAdj_buffers "" frags hne hfr
  · show (((⟨none, some .streaming, none⟩ : PersistCall) :: streamLoopCalls "" frags) ++
        [(⟨some (accumulate "" frags), some .sent, none⟩ : PersistCall)]).getLast? = _
    rw [List.getLast?_concat]

/-- C4 witness: the spec's example fragments `["Hel","lo, ","world"]` pass
through exactly `"Hel"`, `"Hello, "`, `"Hello, world"` with final status
`sent`. -/
theorem streaming_persists_running_prefixes_witness :
    dedupAdj (persistedContents (sendPersistTrace ["Hel", "lo, ", "world"] .completed)) =
      ["Hel", "Hello, ", "Hello, world"] ∧
    (sendPersistTrace ["Hel", "lo, ", "world"] .completed).getLast? =
      some ⟨some "Hello, world", some .sent, none⟩ := by
  have h := streaming_persists_running_prefixes ["Hel", "lo, ", "world"]
    (by decide) (by decide)
  exact ⟨by rw [h.2.2.1]; decide, by rw [h.2.2.2]; decide⟩

/-! ### C9 -/

theorem autoTriggerRun_latched (snaps : List RenderState) :
    autoTriggerRun true snaps = (true, []) := by
  induction snaps with
  | nil => rfl
  | cons s rest ih => simp [autoTriggerRun, autoTriggerStep, ih]

theorem autoTriggerStep_fire (s : RenderState) :
    autoTriggerStep false s = (false, []) ∨
    ∃ m, s.messages.head? = some m ∧ m.role = .user ∧
      autoTriggerStep false s = (true, [⟨m.content, true⟩]) := by
  unfold autoTriggerStep
  by_cases hcond : s.autoTrigger = true ∧ false = false ∧
      s.messages.length > 0 ∧ s.isStreaming = false
  · rw [if_pos hcond]
    rcases hh : s.messages.head? with _ | m
    · left; rfl
    · by_cases hr : m.role = .user
      · right; exact ⟨m, rfl, hr, by simp [hr]⟩
      · left; simp [hr]
  · left; rw [if_neg hcond]

theorem auto_trigger_at_most_once (snaps : List RenderState) :
    (autoTriggerRun false snaps).2.length ≤ 1 := by
  induction snaps with
  | nil => simp [autoTriggerRun]
  | cons s rest ih =>
    rcases autoTriggerStep_fire s with h | ⟨m, hm, hr, h⟩
    · simpa [autoTriggerRun, h] using ih
    · simp [autoTriggerRun, h, autoTriggerRun_latched]

/-- C9: when the view mounts with the auto-trigger flag, the newest loaded
message is user-authored and no stream is active, the effect fires exactly
one `sendMessage` with user-message persistence suppressed
(`skipUserMessage = true`); across any sequence of re-renders the ref latch
allows at most one fire. -/
theorem auto_trigger_exactly_once (s0 : RenderState) (rest : List RenderState)
    (m : ApiMessage) (hat : s0.autoTrigger = true) (hm : s0.messages.head? = some m)
    (hr : m.role = .user) (hst : s0.isStreaming = false) :
    (autoTriggerRun false (s0 :: rest)).2 = [⟨m.content, true⟩] ∧
    (∀ snaps : List RenderState, (autoTriggerRun false snaps).2.length ≤ 1) := by
  constructor
  · rcases hmsg : s0.messages with _ | ⟨m0, tl⟩
    · rw [hmsg] at hm; simp at hm
    · rw [hmsg] at hm
      have hm0 : m0 = m := by simpa using hm
      subst hm0
      simp [autoTriggerRun, autoTriggerStep, hat, hst, hmsg, hr, autoTriggerRun_latched]
  · exact auto_trigger_at_most_once

/-- C9 witness: mounting the view twice over a single user message fires
exactly one suppressed send. -/
theorem auto_trigger_exactly_once_witness :
    (autoTriggerRun false [⟨true, [⟨Role.user, "hi"⟩], false⟩,
        ⟨true, [⟨Role.user, "hi"⟩], false⟩]).2 = [⟨"hi", true⟩] :=
  (auto_trigger_exactly_once ⟨true, [⟨Role.user, "hi"⟩], false⟩
    [⟨true, [⟨Role.user, "hi"⟩], false⟩] ⟨Role.user, "hi"⟩ rfl rfl rfl rfl).1

/-! ### C2 -/

/-- C2 evaluation at the failing input: stopping the stream before any
fragment arrived (`handleStop` with empty `streamingContent`) issues no
terminal persistence at all — the placeholder stays in `streaming` — while
completion, failure and stop-after-content all reach a terminal status, and
the stop-after-content run performs exactly one terminal persistence, as its
last call, with the accumulated content and status `sent`. -/
theorem stop_without_content_leaves_streaming :
    applyCalls .pending (sendPersistTrace ["Hel", "lo"] (.stopped 0)) = .streaming ∧
    (sendPersistTrace ["Hel", "lo"] (.stopped 0)).all
      (fun c => decide (c.status ≠ some .sent ∧ c.status ≠ some .error)) = true ∧
    applyCalls .pending (sendPersistTrace ["Hel", "lo"] .completed) = .sent ∧
    applyCalls .pending (sendPersistTrace ["Hel", "lo"] (.failed 1)) = .error ∧
    applyCalls .pending (sendPersistTrace ["Hel", "lo"] (.stopped 1)) = .sent ∧
    (sendPersistTrace ["Hel", "lo"] (.stopped 1)).countP
      (fun c => decide (c.status = some .sent ∨ c.status = some .error)) = 1 ∧
    (sendPersistTrace ["Hel", "lo"] (.stopped 1)).getLast? =
      some ⟨some "Hel", some .sent, none⟩ := by decide

end Pashucare
